import Mathlib

/-!
Shallow embedding of the Stock-Swing-Analyser repository
(src/Demo1.py, src/update1.py, src/update2.py) and proofs about it.

Prices are modelled as rationals (ℚ).  Dates are modelled as natural
numbers counting days from a Monday epoch, so that `d % 7` is Python's
`date.weekday()` (Monday = 0).  Times of day are minutes since midnight
(09:30 = 570, 16:00 = 960).
-/

namespace StockSwing

/-- Direction of a swing event (`'up'` / `'down'` strings in the source). -/
inductive Direction
  | up
  | down
deriving DecidableEq, Repr

/-! ## Demo1.py — StockSwingCounter.detect_swings (lines 348–406) -/

/-- `pct_from_low = ((price - current_low) / current_low) * 100 if current_low > 0 else 0`
(Demo1.py line 385). -/
def pct_from_low (low price : ℚ) : ℚ :=
  if 0 < low then (price - low) / low * 100 else 0

/-- `pct_from_high = ((current_high - price) / current_high) * 100 if current_high > 0 else 0`
(Demo1.py line 386). -/
def pct_from_high (high price : ℚ) : ℚ :=
  if 0 < high then (high - price) / high * 100 else 0

/-- Loop state of `detect_swings`: the tracking variables initialised at
Demo1.py lines 373–376 plus the two counters. -/
structure SwingState where
  reference_price : ℚ
  current_high : ℚ
  current_low : ℚ
  last_swing_direction : Option Direction
  up_swings : ℕ
  down_swings : ℕ
deriving DecidableEq, Repr

/-- One iteration of the `for price in prices[1:]` loop of `detect_swings`
(Demo1.py lines 378–404): update running extremes, compute the two
percentages (zero-guarded), test the up-swing condition first (`if`),
then the down-swing condition (`elif`); on an emission reset
`reference_price`, `current_high` and `current_low` to the current price. -/
def swingStep (swing_threshold : ℚ) (s : SwingState) (price : ℚ) : SwingState :=
  let high := max s.current_high price
  let low := min s.current_low price
  if pct_from_low low price ≥ swing_threshold ∧ s.last_swing_direction ≠ some .up then
    { reference_price := price, current_high := price, current_low := price,
      last_swing_direction := some .up,
      up_swings := s.up_swings + 1, down_swings := s.down_swings }
  else if pct_from_high high price ≥ swing_threshold ∧ s.last_swing_direction ≠ some .down then
    { reference_price := price, current_high := price, current_low := price,
      last_swing_direction := some .down,
      up_swings := s.up_swings, down_swings := s.down_swings + 1 }
  else
    { s with current_high := high, current_low := low }

/-- Initial tracking state: all three reference prices seeded to the first
close, no last swing direction (Demo1.py lines 373–376). -/
def initSwingState (p : ℚ) : SwingState :=
  { reference_price := p, current_high := p, current_low := p,
    last_swing_direction := none, up_swings := 0, down_swings := 0 }

/-- `StockSwingCounter.detect_swings` (Demo1.py lines 348–406) on the list of
closing prices: fewer than 2 prices yields `(0, 0)`; otherwise fold the loop
body over `prices[1:]` and return `(up_swings, down_swings)`. -/
def detect_swings (prices : List ℚ) (swing_threshold : ℚ) : ℕ × ℕ :=
  match prices with
  | p0 :: p1 :: rest =>
    let final := (p1 :: rest).foldl (swingStep swing_threshold) (initSwingState p0)
    (final.up_swings, final.down_swings)
  | _ => (0, 0)

/-! ## Spec §4.2 SwingDetector, stated from the spec's words -/

/-- State of the §4.2 machine, with the spec's field names:
`reference_price` (seed = first bar's close), `running_high`, `running_low`
(both seeded to the same value), `last_direction` (initially none). -/
structure SpecSwingState where
  reference_price : ℚ
  running_high : ℚ
  running_low : ℚ
  last_direction : Option Direction
  up_count : ℕ
  down_count : ℕ
deriving DecidableEq, Repr

/-- One step of the §4.2 machine, from the spec's words: update
`running_high`/`running_low` to max/min with `p`; compute
`pct_from_low = (p − running_low)/running_low × 100` and
`pct_from_high = (running_high − p)/running_high × 100`; the up-swing
condition is evaluated before the down-swing condition; an event is emitted
only when the percentage is ≥ threshold and `last_direction` differs; on
every emission `reference_price`, `running_high`, `running_low` all reset
to `p`. -/
def specSwingStep (threshold : ℚ) (s : SpecSwingState) (p : ℚ) : SpecSwingState :=
  let running_high := max s.running_high p
  let running_low := min s.running_low p
  let pfl := (p - running_low) / running_low * 100
  let pfh := (running_high - p) / running_high * 100
  if pfl ≥ threshold ∧ s.last_direction ≠ some .up then
    { reference_price := p, running_high := p, running_low := p,
      last_direction := some .up,
      up_count := s.up_count + 1, down_count := s.down_count }
  else if pfh ≥ threshold ∧ s.last_direction ≠ some .down then
    { reference_price := p, running_high := p, running_low := p,
      last_direction := some .down,
      up_count := s.up_count, down_count := s.down_count + 1 }
  else
    { s with running_high := running_high, running_low := running_low }

/-- The §4.2 machine over a session's closes: seeded from the first close,
run over each subsequent close, returning `(up_count, down_count)`. -/
def specDetectSwings (prices : List ℚ) (threshold : ℚ) : ℕ × ℕ :=
  match prices with
  | p0 :: p1 :: rest =>
    let final := (p1 :: rest).foldl (specSwingStep threshold)
      { reference_price := p0, running_high := p0, running_low := p0,
        last_direction := none, up_count := 0, down_count := 0 }
    (final.up_count, final.down_count)
  | _ => (0, 0)

/-- Correspondence between the code's loop state and the spec state. -/
def corrSwing (s : SwingState) : SpecSwingState :=
  { reference_price := s.reference_price, running_high := s.current_high,
    running_low := s.current_low, last_direction := s.last_swing_direction,
    up_count := s.up_swings, down_count := s.down_swings }

lemma corrSwing_init (p : ℚ) :
    corrSwing (initSwingState p) =
      { reference_price := p, running_high := p, running_low := p,
        last_direction := none, up_count := 0, down_count := 0 } := rfl

/-- With positive prices and positive running extremes, one code step agrees
with one spec step: the zero-guards of `pct_from_low`/`pct_from_high` never
fire, so the guarded and unguarded percentages coincide. -/
lemma swingStep_corr (t : ℚ) (s : SwingState) (p : ℚ) (hp : 0 < p)
    (hl : 0 < s.current_low) (hh : 0 < s.current_high) :
    corrSwing (swingStep t s p) = specSwingStep t (corrSwing s) p := by
  have hlow : 0 < min s.current_low p := lt_min hl hp
  have hhigh : 0 < max s.current_high p := lt_of_lt_of_le hh (le_max_left _ _)
  simp only [swingStep, specSwingStep, corrSwing, pct_from_low, pct_from_high,
    if_pos hlow, if_pos hhigh]
  split_ifs <;> rfl

/-- One code step preserves positivity of the running extremes. -/
lemma swingStep_pos (t : ℚ) (s : SwingState) (p : ℚ) (hp : 0 < p)
    (hl : 0 < s.current_low) (hh : 0 < s.current_high) :
    0 < (swingStep t s p).current_low ∧ 0 < (swingStep t s p).current_high := by
  simp only [swingStep]
  split_ifs <;> simp only []
  · exact ⟨hp, hp⟩
  · exact ⟨hp, hp⟩
  · exact ⟨lt_min hl hp, lt_of_lt_of_le hh (le_max_left _ _)⟩

/-- Folding the code's loop body corresponds to folding the spec's, for any
starting state with positive running extremes and positive prices. -/
lemma foldl_swing_corr (t : ℚ) :
    ∀ (l : List ℚ) (s : SwingState), (∀ p ∈ l, 0 < p) →
      0 < s.current_low → 0 < s.current_high →
      corrSwing (l.foldl (swingStep t) s) = l.foldl (specSwingStep t) (corrSwing s) := by
  intro l
  induction l with
  | nil => intro s _ _ _; rfl
  | cons p ps ih =>
    intro s hall hl hh
    have hp : 0 < p := hall p (List.mem_cons_self _ _)
    have hpos := swingStep_pos t s p hp hl hh
    simp only [List.foldl_cons]
    rw [ih (swingStep t s p) (fun q hq => hall q (List.mem_cons_of_mem _ hq))
      hpos.1 hpos.2, swingStep_corr t s p hp hl hh]

/-- C1: for every session whose close-price sequence has at least 2 elements
and all positive, `detect_swings` returns exactly the `(up_count, down_count)`
produced by the §4.2 state machine (seed all references to the first close,
`last_direction` to none, update extremes, compute the two percentages,
evaluate the up-swing condition before the down-swing condition, emit only on
percentage ≥ threshold with differing `last_direction`, and reset all
reference prices to the current price on each emission). -/
theorem detect_swings_eq_spec (prices : List ℚ) (t : ℚ)
    (hlen : 2 ≤ prices.length) (hpos : ∀ p ∈ prices, 0 < p) :
    detect_swings prices t = specDetectSwings prices t := by
  cases prices with
  | nil => simp at hlen
  | cons p0 tl =>
    cases tl with
    | nil => simp at hlen
    | cons p1 rest =>
      have h0 : 0 < p0 := hpos p0 (List.mem_cons_self _ _)
      have h := foldl_swing_corr t (p1 :: rest) (initSwingState p0)
        (fun q hq => hpos q (List.mem_cons_of_mem _ hq)) h0 h0
      rw [corrSwing_init] at h
      simp only [detect_swings, specDetectSwings, ← h]
      rfl

/-- Witness for C1 at the spec §8 scenario-1 session. -/
theorem detect_swings_eq_spec_witness :
    2 ≤ ([100, 106, 103, 112, 108] : List ℚ).length ∧
    (∀ p ∈ ([100, 106, 103, 112, 108] : List ℚ), 0 < p) ∧
    detect_swings [100, 106, 103, 112, 108] 5 =
      specDetectSwings [100, 106, 103, 112, 108] 5 :=
  ⟨by decide, by decide,
    detect_swings_eq_spec [100, 106, 103, 112, 108] 5 (by decide) (by decide)⟩

/-! ## Swing event traces (for the §4.2 alternation invariant) -/

/-- `detect_swings` instrumented with its emitted SwingEvent trace: an up
event is emitted exactly when a step increments `up_swings`, a down event
exactly when it increments `down_swings`. -/
def swingStepEvents (t : ℚ) (se : SwingState × List Direction) (p : ℚ) :
    SwingState × List Direction :=
  let s' := swingStep t se.1 p
  if s'.up_swings ≠ se.1.up_swings then (s', se.2 ++ [.up])
  else if s'.down_swings ≠ se.1.down_swings then (s', se.2 ++ [.down])
  else (s', se.2)

/-- The ordered list of SwingEvent directions emitted by `detect_swings`
over a session's closes. -/
def detect_swings_events (prices : List ℚ) (t : ℚ) : List Direction :=
  match prices with
  | p0 :: p1 :: rest =>
    ((p1 :: rest).foldl (swingStepEvents t) (initSwingState p0, [])).2
  | _ => []

/-- Case analysis on one `detect_swings` step: either an up event (requires
`last_swing_direction ≠ up`, sets it to up), a down event (requires
`≠ down`, sets it to down), or no event (counters and direction unchanged). -/
lemma swingStep_branches (t : ℚ) (s : SwingState) (p : ℚ) :
    ((swingStep t s p).last_swing_direction = some .up ∧
      (swingStep t s p).up_swings = s.up_swings + 1 ∧
      (swingStep t s p).down_swings = s.down_swings ∧
      s.last_swing_direction ≠ some .up) ∨
    ((swingStep t s p).last_swing_direction = some .down ∧
      (swingStep t s p).up_swings = s.up_swings ∧
      (swingStep t s p).down_swings = s.down_swings + 1 ∧
      s.last_swing_direction ≠ some .down) ∨
    ((swingStep t s p).last_swing_direction = s.last_swing_direction ∧
      (swingStep t s p).up_swings = s.up_swings ∧
      (swingStep t s p).down_swings = s.down_swings) := by
  simp only [swingStep]
  split_ifs with h1 h2
  · exact Or.inl ⟨rfl, rfl, rfl, h1.2⟩
  · exact Or.inr (Or.inl ⟨rfl, rfl, rfl, h2.2⟩)
  · exact Or.inr (Or.inr ⟨rfl, rfl, rfl⟩)

/-- Trace invariant: the loop's `last_swing_direction` always equals the last
emitted event (none before the first event), and the trace alternates. -/
def SwingTraceInv (se : SwingState × List Direction) : Prop :=
  se.1.last_swing_direction = se.2.getLast? ∧ List.Chain' (· ≠ ·) se.2

lemma chain'_ne_concat {l : List Direction} {d : Direction}
    (hc : List.Chain' (· ≠ ·) l) (hl : ∀ x, l.getLast? = some x → x ≠ d) :
    List.Chain' (· ≠ ·) (l ++ [d]) := by
  rw [List.chain'_append]
  refine ⟨hc, List.chain'_singleton d, ?_⟩
  intro x hx y hy
  simp only [List.head?_cons, Option.mem_def, Option.some.injEq] at hy
  exact hy ▸ hl x hx

lemma swingStepEvents_inv (t : ℚ) (p : ℚ) (se : SwingState × List Direction)
    (h : SwingTraceInv se) : SwingTraceInv (swingStepEvents t se p) := by
  obtain ⟨hdir, hchain⟩ := h
  rcases swingStep_branches t se.1 p with
    ⟨hd, hu, hdn, hne⟩ | ⟨hd, hu, hdn, hne⟩ | ⟨hd, hu, hdn⟩
  · have hcond : (swingStep t se.1 p).up_swings ≠ se.1.up_swings := by omega
    simp only [swingStepEvents, if_pos hcond]
    refine ⟨by rw [hd, List.getLast?_concat], ?_⟩
    refine chain'_ne_concat hchain ?_
    intro x hx hxd
    exact hne (by rw [hdir, hx, hxd])
  · have hcond1 : ¬ (swingStep t se.1 p).up_swings ≠ se.1.up_swings := by omega
    have hcond2 : (swingStep t se.1 p).down_swings ≠ se.1.down_swings := by omega
    simp only [swingStepEvents, if_neg hcond1, if_pos hcond2]
    refine ⟨by rw [hd, List.getLast?_concat], ?_⟩
    refine chain'_ne_concat hchain ?_
    intro x hx hxd
    exact hne (by rw [hdir, hx, hxd])
  · have hcond1 : ¬ (swingStep t se.1 p).up_swings ≠ se.1.up_swings := by omega
    have hcond2 : ¬ (swingStep t se.1 p).down_swings ≠ se.1.down_swings := by omega
    simp only [swingStepEvents, if_neg hcond1, if_neg hcond2]
    exact ⟨by rw [hd, hdir], hchain⟩

lemma foldl_swingStepEvents_inv (t : ℚ) :
    ∀ (l : List ℚ) (se : SwingState × List Direction),
      SwingTraceInv se → SwingTraceInv (l.foldl (swingStepEvents t) se) := by
  intro l
  induction l with
  | nil => intro se h; exact h
  | cons p ps ih =>
    intro se h
    exact ih _ (swingStepEvents_inv t p se h)

/-- C2 (amended): the SwingEvent sequence emitted by `detect_swings`
alternates — no two consecutively emitted events share a direction — for
every session and every threshold. -/
theorem detect_swings_events_alternate (prices : List ℚ) (t : ℚ) :
    List.Chain' (· ≠ ·) (detect_swings_events prices t) := by
  cases prices with
  | nil => exact List.chain'_nil
  | cons p0 tl =>
    cases tl with
    | nil => exact List.chain'_nil
    | cons p1 rest =>
      have h := foldl_swingStepEvents_inv t (p1 :: rest) (initSwingState p0, [])
        ⟨rfl, List.chain'_nil⟩
      exact h.2

/-! ## update2.py — SwingCounterTab.run, per-day counting loop (lines 1020–1037) -/

/-- Loop state of the per-day counting loop of `SwingCounterTab.run`,
instrumented with the emitted event directions. -/
structure TabSwingState where
  ref : ℚ
  up : ℕ
  down : ℕ
  events : List Direction
deriving DecidableEq, Repr

/-- One iteration of `for p in prices[1:]` (update2.py lines 1028–1035):
`pct_change = (p - ref) / ref * 100`; on `pct_change ≥ swing_pct` count an
up swing and reset `ref = p`; `elif pct_change ≤ -swing_pct` count a down
swing and reset `ref = p`.  There is no last-direction guard. -/
def tabSwingStep (swing_pct : ℚ) (s : TabSwingState) (p : ℚ) : TabSwingState :=
  let pct_change := (p - s.ref) / s.ref * 100
  if pct_change ≥ swing_pct then ⟨p, s.up + 1, s.down, s.events ++ [.up]⟩
  else if pct_change ≤ -swing_pct then ⟨p, s.up, s.down + 1, s.events ++ [.down]⟩
  else s

/-- Per-day counting of `SwingCounterTab.run` (update2.py lines 1020–1037):
a day with fewer than 2 closes is skipped (`continue`, result `none`);
otherwise `ref` seeds to the first close and the loop runs over the
remaining closes. -/
def swingCounterTab_day (prices : List ℚ) (swing_pct : ℚ) : Option TabSwingState :=
  match prices with
  | p0 :: p1 :: rest =>
    some ((p1 :: rest).foldl (tabSwingStep swing_pct) ⟨p0, 0, 0, []⟩)
  | _ => none

/-- C2 counterexample: on closes `[100, 105, 110.25]` with threshold
`5 ∈ (0, 100]`, the per-day counting loop of `SwingCounterTab.run` emits two
consecutive up events, so its event sequence does not alternate. -/
theorem swingCounterTab_day_not_alternating :
    (swingCounterTab_day [100, 105, 441/4] 5).map TabSwingState.events =
      some [.up, .up] ∧
    ¬ List.Chain' (· ≠ ·) [Direction.up, Direction.up] := by
  constructor
  · norm_num [swingCounterTab_day, tabSwingStep]
  · simp [List.chain'_cons]

/-! ## update2.py — ReversalCycleTab.run, per-day cycle loop (lines 1676–1704) -/

/-- Loop state of the per-day reversal-cycle loop: `ref` (seeded to the
day's first bar's Open), `direction` (`None`/`'up'`/`'down'`), `cycles`. -/
structure RevState where
  ref : ℚ
  direction : Option Direction
  cycles : ℕ
deriving DecidableEq, Repr

/-- One iteration of `for p in day_df["Close"]` (update2.py lines 1683–1702):
`pct_change = (p - ref) / ref * 100`; with no direction, a move
`≥ n_pct` (resp. `≤ -n_pct`) sets direction up (resp. down) and resets
`ref = p`; with direction up a move `≤ -n_pct` increments `cycles`, clears
the direction and resets `ref = p`; symmetrically for down. -/
def revStep (n_pct : ℚ) (s : RevState) (p : ℚ) : RevState :=
  let pct_change := (p - s.ref) / s.ref * 100
  match s.direction with
  | none =>
    if pct_change ≥ n_pct then { ref := p, direction := some .up, cycles := s.cycles }
    else if pct_change ≤ -n_pct then { ref := p, direction := some .down, cycles := s.cycles }
    else s
  | some .up =>
    if pct_change ≤ -n_pct then { ref := p, direction := none, cycles := s.cycles + 1 }
    else s
  | some .down =>
    if pct_change ≥ n_pct then { ref := p, direction := none, cycles := s.cycles + 1 }
    else s

/-- The reversal-cycle count of one session, `ref` seeded to
`day_df["Open"].iloc[0]` and the loop run over all of the session's closes
(update2.py lines 1680–1702). -/
def reversal_cycles (openPrice : ℚ) (closes : List ℚ) (n_pct : ℚ) : ℕ :=
  (closes.foldl (revStep n_pct) { ref := openPrice, direction := none, cycles := 0 }).cycles

/-- Per-day entry of `ReversalCycleTab.run`: a day with fewer than 2 bars is
skipped (`continue`, result `none`); otherwise the session's cycle count. -/
def reversalCycleTab_day (openPrice : ℚ) (closes : List ℚ) (n_pct : ℚ) : Option ℕ :=
  if closes.length < 2 then none
  else some (reversal_cycles openPrice closes n_pct)

/-! ## Spec §4.3 ReversalCycleDetector, stated from the spec's words -/

/-- State of the §4.3 machine, with the spec's names: `reference_price`
(seed = session's first bar's *open*), `direction` ∈ {none, up, down},
`cycle_count`. -/
structure SpecRevState where
  reference_price : ℚ
  direction : Option Direction
  cycle_count : ℕ
deriving DecidableEq, Repr

/-- One step of the §4.3 machine, from the spec's words: for each bar's
close `p`, `pct_change = (p − reference_price)/reference_price × 100`;
while direction = none, `pct_change ≥ threshold` sets direction up and
`reference_price = p`, else `pct_change ≤ −threshold` sets direction down
and `reference_price = p`; while direction = up, `pct_change ≤ −threshold`
increments `cycle_count`, returns direction to none and resets
`reference_price = p`; symmetrically for down. -/
def specRevStep (threshold : ℚ) (s : SpecRevState) (p : ℚ) : SpecRevState :=
  let pct_change := (p - s.reference_price) / s.reference_price * 100
  match s.direction with
  | none =>
    if pct_change ≥ threshold then
      { reference_price := p, direction := some .up, cycle_count := s.cycle_count }
    else if pct_change ≤ -threshold then
      { reference_price := p, direction := some .down, cycle_count := s.cycle_count }
    else s
  | some .up =>
    if pct_change ≤ -threshold then
      { reference_price := p, direction := none, cycle_count := s.cycle_count + 1 }
    else s
  | some .down =>
    if pct_change ≥ threshold then
      { reference_price := p, direction := none, cycle_count := s.cycle_count + 1 }
    else s

/-- The §4.3 machine over one session: seeded from the first bar's open,
run over every bar's close, returning `cycle_count`. -/
def specReversalCycles (openPrice : ℚ) (closes : List ℚ) (threshold : ℚ) : ℕ :=
  (closes.foldl (specRevStep threshold)
    { reference_price := openPrice, direction := none, cycle_count := 0 }).cycle_count

/-- Correspondence between the code's loop state and the spec state. -/
def corrRev (s : RevState) : SpecRevState :=
  { reference_price := s.ref, direction := s.direction, cycle_count := s.cycles }

lemma revStep_corr (t : ℚ) (s : RevState) (p : ℚ) :
    corrRev (revStep t s p) = specRevStep t (corrRev s) p := by
  obtain ⟨r, dir, c⟩ := s
  rcases dir with _ | d
  · simp only [revStep, specRevStep, corrRev]
    split_ifs <;> rfl
  · cases d <;>
      (simp only [revStep, specRevStep, corrRev]; split_ifs <;> rfl)

lemma foldl_rev_corr (t : ℚ) :
    ∀ (l : List ℚ) (s : RevState),
      corrRev (l.foldl (revStep t) s) = l.foldl (specRevStep t) (corrRev s) := by
  intro l
  induction l with
  | nil => intro s; rfl
  | cons p ps ih =>
    intro s
    simp only [List.foldl_cons]
    rw [ih (revStep t s p), revStep_corr]

/-- C5: for every session with at least 2 bars and positive prices, the
per-day reversal-cycle counter of `ReversalCycleTab.run` equals the §4.3
state machine seeded to the first bar's open; and on a session with
open = 100, closes `[100, 103, 106, 101, 97]`, threshold 3 the count is 1
(a single threshold-sized leg never counts as a cycle). -/
theorem reversalCycleTab_day_eq_spec :
    (∀ (openPrice : ℚ) (closes : List ℚ) (t : ℚ),
      2 ≤ closes.length → 0 < openPrice → (∀ p ∈ closes, 0 < p) →
      reversalCycleTab_day openPrice closes t =
        some (specReversalCycles openPrice closes t)) ∧
    reversal_cycles 100 [100, 103, 106, 101, 97] 3 = 1 := by
  constructor
  · intro openPrice closes t hlen _ _
    have hnot : ¬ closes.length < 2 := by omega
    simp only [reversalCycleTab_day, if_neg hnot, reversal_cycles, Option.some.injEq]
    have h := foldl_rev_corr t closes { ref := openPrice, direction := none, cycles := 0 }
    exact congrArg SpecRevState.cycle_count h
  · norm_num [reversal_cycles, revStep]

/-- Witness for C5 at the spec §8 scenario-2 session. -/
theorem reversalCycleTab_day_eq_spec_witness :
    2 ≤ ([100, 103, 106, 101, 97] : List ℚ).length ∧ (0:ℚ) < 100 ∧
    (∀ p ∈ ([100, 103, 106, 101, 97] : List ℚ), 0 < p) ∧
    reversalCycleTab_day 100 [100, 103, 106, 101, 97] 3 =
      some (specReversalCycles 100 [100, 103, 106, 101, 97] 3) :=
  ⟨by decide, by decide, by decide,
    reversalCycleTab_day_eq_spec.1 100 [100, 103, 106, 101, 97] 3
      (by decide) (by decide) (by decide)⟩

/-- One reversal step never decreases the cycle counter. -/
lemma revStep_cycles_le (t : ℚ) (s : RevState) (p : ℚ) :
    s.cycles ≤ (revStep t s p).cycles := by
  obtain ⟨r, dir, c⟩ := s
  rcases dir with _ | d
  · simp only [revStep]
    split_ifs <;> simp
  · cases d <;> (simp only [revStep]; split_ifs <;> simp)

lemma foldl_rev_cycles_le (t : ℚ) :
    ∀ (l : List ℚ) (s : RevState), s.cycles ≤ (l.foldl (revStep t) s).cycles := by
  intro l
  induction l with
  | nil => intro s; exact le_refl _
  | cons p ps ih =>
    intro s
    exact le_trans (revStep_cycles_le t s p) (ih (revStep t s p))

/-- C9: for every session and every prefix of its close sequence, the
reversal-cycle state machine's count over the prefix is at most its count
over the full session — cycles only accumulate. -/
theorem reversal_cycles_prefix_le (openPrice t : ℚ) (pre full : List ℚ)
    (h : pre <+: full) :
    reversal_cycles openPrice pre t ≤ reversal_cycles openPrice full t := by
  obtain ⟨suffix, rfl⟩ := h
  simp only [reversal_cycles, List.foldl_append]
  exact foldl_rev_cycles_le t suffix _

/-- Witness for C9 on a concrete prefix of the §8 scenario-2 session. -/
theorem reversal_cycles_prefix_le_witness :
    ([100, 103, 106] : List ℚ) <+: [100, 103, 106, 101, 97] ∧
    reversal_cycles 100 [100, 103, 106] 3 ≤
      reversal_cycles 100 [100, 103, 106, 101, 97] 3 :=
  ⟨⟨[101, 97], rfl⟩,
    reversal_cycles_prefix_le 100 3 [100, 103, 106] [100, 103, 106, 101, 97]
      ⟨[101, 97], rfl⟩⟩

/-! ## update2.py — StockUniverse symbol persistence (lines 73–89)

Python strings are modelled as Lean `String`s; `str.strip()` removes
leading and trailing whitespace, `str.upper()` maps `Char.toUpper`
(ASCII, as exercised by ticker symbols), and `sorted` sorts
lexicographically by code point.  The CSV file is modelled as the list of
single-field rows in order; `csv.writer`/`csv.reader` round-trip each
field unchanged. -/

/-- Python `str.strip()` on the character list: drop leading and trailing
whitespace. -/
def pyStripL (l : List Char) : List Char :=
  ((l.dropWhile Char.isWhitespace).reverse.dropWhile Char.isWhitespace).reverse

/-- Python `str.strip()`. -/
def pyStrip (s : String) : String := ⟨pyStripL s.data⟩

/-- Python `str.upper()`. -/
def pyUpper (s : String) : String := ⟨s.data.map Char.toUpper⟩

/-- `s.strip().upper()`, the normalization applied by both `save_symbols`
(update2.py line 87) and `load_symbols` (update2.py line 76). -/
def normSym (s : String) : String := pyUpper (pyStrip s)

/-- Python string `<`-comparison: lexicographic by code point. -/
def lexLe (a b : List Char) : Bool :=
  match a, b with
  | [], _ => true
  | _ :: _, [] => false
  | c :: cs, d :: ds => if c < d then true else if d < c then false else lexLe cs ds

def pyLe (a b : String) : Bool := lexLe a.data b.data

/-- Insertion step of Python's `sorted` (a stable sort; on the distinct
elements of a set any correct sort yields the same list). -/
def insertSorted (s : String) : List String → List String
  | [] => [s]
  | t :: ts => if pyLe s t then s :: t :: ts else t :: insertSorted s ts

def sortStrings (l : List String) : List String := l.foldr insertSorted []

/-- `StockUniverse.save_symbols` (update2.py lines 81–89): iterate over
`sorted(set(symbols))` — note the de-duplication happens on the *raw*
strings, before stripping and uppercasing — skip entries whose strip is
blank, and write `s.strip().upper()` for each.  Returns the rows written. -/
def save_symbols (symbols : List String) : List String :=
  ((sortStrings symbols.dedup).filter (fun s => pyStrip s ≠ "")).map normSym

/-- `StockUniverse.load_symbols` (update2.py lines 73–79): keep rows whose
first field strips to nonblank, and return `row[0].strip().upper()` for
each, in file order. -/
def load_symbols (rows : List String) : List String :=
  (rows.filter (fun r => pyStrip r ≠ "")).map normSym

lemma char_eq_iff_toNat (c d : Char) : c = d ↔ c.toNat = d.toNat :=
  ⟨fun h => h ▸ rfl, fun h => Char.ext (UInt32.ext h)⟩

lemma toNat_ofNat_valid (n : Nat) (h : n < 0xd800) : (Char.ofNat n).toNat = n := by
  rw [Char.ofNat, dif_pos (Or.inl h)]
  simp [Char.ofNatAux, Char.toNat, UInt32.toNat]

lemma toNat_toUpper (c : Char) :
    (Char.toUpper c).toNat =
      if 97 ≤ c.toNat ∧ c.toNat ≤ 122 then c.toNat - 32 else c.toNat := by
  simp only [Char.toUpper]
  split_ifs with h
  · exact toNat_ofNat_valid _ (by omega)
  · rfl

lemma isWhitespace_iff (c : Char) :
    c.isWhitespace = true ↔
      (c.toNat = 32 ∨ c.toNat = 9 ∨ c.toNat = 13 ∨ c.toNat = 10) := by
  have h1 : (' ').toNat = 32 := rfl
  have h2 : ('\t').toNat = 9 := rfl
  have h3 : ('\r').toNat = 13 := rfl
  have h4 : ('\n').toNat = 10 := rfl
  simp only [Char.isWhitespace, Bool.or_eq_true, decide_eq_true_eq,
    char_eq_iff_toNat, h1, h2, h3, h4]
  tauto

/-- Uppercasing maps the lowercase letters (not whitespace) onto uppercase
letters (not whitespace) and fixes everything else. -/
lemma isWhitespace_toUpper (c : Char) :
    (Char.toUpper c).isWhitespace = c.isWhitespace := by
  by_cases h97 : 97 ≤ c.toNat ∧ c.toNat ≤ 122
  · have ht : (Char.toUpper c).toNat = c.toNat - 32 := by
      rw [toNat_toUpper, if_pos h97]
    have h1 : ¬ ((Char.toUpper c).isWhitespace = true) := by
      rw [isWhitespace_iff, ht]; omega
    have h2 : ¬ (c.isWhitespace = true) := by
      rw [isWhitespace_iff]; omega
    rw [Bool.eq_false_iff.mpr h1, Bool.eq_false_iff.mpr h2]
  · have ht : (Char.toUpper c).toNat = c.toNat := by
      rw [toNat_toUpper, if_neg h97]
    by_cases hw : c.isWhitespace = true
    · rw [hw, isWhitespace_iff, ht]
      exact (isWhitespace_iff c).1 hw
    · have h1 : ¬ ((Char.toUpper c).isWhitespace = true) := by
        rw [isWhitespace_iff, ht]
        intro hx
        exact hw ((isWhitespace_iff c).2 hx)
      rw [Bool.eq_false_iff.mpr h1, Bool.eq_false_iff.mpr hw]

lemma toUpper_toUpper (c : Char) : Char.toUpper (Char.toUpper c) = Char.toUpper c := by
  rw [char_eq_iff_toNat, toNat_toUpper, toNat_toUpper]
  split_ifs <;> omega

lemma pyStripL_eq (l : List Char) :
    pyStripL l = List.rdropWhile Char.isWhitespace (l.dropWhile Char.isWhitespace) := rfl

lemma dropWhile_rdropWhile_dropWhile (p : Char → Bool) (l : List Char) :
    List.dropWhile p (List.rdropWhile p (List.dropWhile p l)) =
      List.rdropWhile p (List.dropWhile p l) := by
  rcases hR : List.rdropWhile p (List.dropWhile p l) with _ | ⟨c, R⟩
  · simp
  · rw [List.dropWhile_cons]
    have hpref := List.rdropWhile_prefix (l := List.dropWhile p l) (p := p)
    rw [hR] at hpref
    obtain ⟨t, ht⟩ := hpref
    have hhead : (List.dropWhile p l).head? = some c := by rw [← ht]; rfl
    have hc := List.head?_dropWhile_not p l
    rw [hhead] at hc
    simp only at hc
    simp [hc]

lemma pyStripL_idem (l : List Char) : pyStripL (pyStripL l) = pyStripL l := by
  rw [pyStripL_eq, pyStripL_eq, dropWhile_rdropWhile_dropWhile,
    List.rdropWhile_idempotent]

lemma pyStripL_map_toUpper (l : List Char) :
    pyStripL (l.map Char.toUpper) = (pyStripL l).map Char.toUpper := by
  have hfun : (Char.isWhitespace ∘ Char.toUpper) = Char.isWhitespace :=
    funext isWhitespace_toUpper
  simp only [pyStripL, List.dropWhile_map, hfun]
  rw [← List.map_reverse, List.dropWhile_map, hfun]
  exact (List.map_reverse _ _).symm

lemma pyStrip_pyUpper (s : String) : pyStrip (pyUpper s) = pyUpper (pyStrip s) :=
  String.ext (pyStripL_map_toUpper s.data)

lemma pyStrip_pyStrip (s : String) : pyStrip (pyStrip s) = pyStrip s :=
  String.ext (pyStripL_idem s.data)

lemma pyUpper_pyUpper (s : String) : pyUpper (pyUpper s) = pyUpper s := by
  apply String.ext
  show (s.data.map Char.toUpper).map Char.toUpper = s.data.map Char.toUpper
  rw [List.map_map]
  exact List.map_congr_left (fun c _ => toUpper_toUpper c)

lemma pyUpper_eq_empty (s : String) : pyUpper s = "" ↔ s = "" := by
  constructor
  · intro h
    have hd : s.data.map Char.toUpper = [] := congrArg String.data h
    exact String.ext (List.map_eq_nil_iff.mp hd)
  · intro h
    rw [h]
    rfl

/-- Normalization `strip().upper()` is idempotent. -/
lemma normSym_normSym (s : String) : normSym (normSym s) = normSym s := by
  unfold normSym
  rw [pyStrip_pyUpper, pyStrip_pyStrip, pyUpper_pyUpper]

lemma pyStrip_normSym (s : String) : pyStrip (normSym s) = normSym s := by
  unfold normSym
  rw [pyStrip_pyUpper, pyStrip_pyStrip]

lemma normSym_ne_empty (s : String) (h : pyStrip s ≠ "") : normSym s ≠ "" := by
  unfold normSym
  intro hx
  exact h ((pyUpper_eq_empty _).mp hx)

/-- C3 (amended): `save_symbols` then `load_symbols` returns exactly the
persisted rows — the uppercase-of-strip image of the sorted de-duplicated
*raw* input, with blanks dropped.  De-duplication precedes
case-normalization, so case variants of one ticker survive as duplicate
rows: `["aapl", "AAPL", "msft"]` round-trips to
`["AAPL", "AAPL", "MSFT"]`. -/
theorem symbols_roundtrip :
    (∀ symbols : List String,
      load_symbols (save_symbols symbols) = save_symbols symbols) ∧
    load_symbols (save_symbols ["aapl", "AAPL", "msft"]) =
      ["AAPL", "AAPL", "MSFT"] := by
  constructor
  · intro symbols
    unfold load_symbols save_symbols
    set M := (sortStrings symbols.dedup).filter (fun s => pyStrip s ≠ "") with hM
    have hkeep : ∀ s ∈ M, pyStrip s ≠ "" := by
      intro s hs
      have := List.of_mem_filter hs
      simpa using this
    have hfilter : (M.map normSym).filter (fun r => pyStrip r ≠ "") = M.map normSym := by
      apply List.filter_eq_self.mpr
      intro r hr
      obtain ⟨s, hs, rfl⟩ := List.mem_map.mp hr
      simp only [pyStrip_normSym, decide_eq_true_eq]
      exact normSym_ne_empty s (hkeep s hs)
    rw [hfilter, List.map_map]
    exact List.map_congr_left (fun s _ => normSym_normSym s)
  · decide

/-- C3 counterexample: the round trip of `["aapl", "AAPL", "msft"]` is not
the de-duplicated `["AAPL", "MSFT"]` the claim asserts — the persisted
file holds a duplicate `AAPL` row. -/
theorem symbols_roundtrip_counterexample :
    load_symbols (save_symbols ["aapl", "AAPL", "msft"]) ≠ ["AAPL", "MSFT"] := by
  decide

/-! ## Price bars and the business calendar -/

/-- One intraday price bar.  `time` is minutes since midnight. -/
structure Bar where
  time : ℕ
  openPrice : ℚ
  high : ℚ
  low : ℚ
  close : ℚ
deriving DecidableEq, Repr

/-- `is_trading_day` (update2.py lines 20–22, update1.py identical):
`dt.weekday() < 5`.  Dates are days since a Monday epoch, so `d % 7` is
Python's `date.weekday()` (Monday = 0). -/
def is_trading_day (d : ℕ) : Bool := d % 7 < 5

/-- The `while not is_trading_day(prev_day)` loop of
`get_previous_trading_day`, with explicit fuel (the source loop is
unbounded; `get_previous_trading_day_correct` shows 7 units always
suffice, which is the termination bound). -/
def prevTradingDayLoop : ℕ → ℕ → Option ℕ
  | 0, _ => none
  | fuel + 1, d => if is_trading_day d then some d else prevTradingDayLoop fuel (d - 1)

/-- `get_previous_trading_day` (update2.py lines 25–30, update1.py lines
25–30): start at `dt - 1 day` and walk back while not a trading day. -/
def get_previous_trading_day (d : ℕ) : Option ℕ := prevTradingDayLoop 7 (d - 1)

lemma is_trading_day_iff (d : ℕ) : is_trading_day d = true ↔ d % 7 < 5 := by
  simp [is_trading_day]

lemma is_trading_day_eq_false (d : ℕ) (h : ¬ d % 7 < 5) :
    is_trading_day d = false := by
  simp [is_trading_day]
  omega

/-- C10: for every date (at least 3 days past the epoch, so the walk stays
in range), `get_previous_trading_day` terminates within its 7-step bound and
returns the latest weekday strictly before `d`: the result is strictly
earlier, is a trading day, and no trading day lies strictly between it
and `d`. -/
theorem get_previous_trading_day_correct (d : ℕ) (hd : 3 ≤ d) :
    ∃ r, get_previous_trading_day d = some r ∧ r < d ∧
      is_trading_day r = true ∧
      ∀ m, r < m → m < d → is_trading_day m = false := by
  have h7 : d % 7 = 0 ∨ d % 7 = 1 ∨ d % 7 = 2 ∨ d % 7 = 3 ∨ d % 7 = 4 ∨
      d % 7 = 5 ∨ d % 7 = 6 := by omega
  rcases h7 with h | h | h | h | h | h | h
  · -- Monday: walk back across Sunday and Saturday to Friday
    refine ⟨d - 3, ?_, by omega, (is_trading_day_iff _).mpr (by omega), ?_⟩
    · have e1 : d - 1 - 1 = d - 2 := by omega
      have e2 : d - 2 - 1 = d - 3 := by omega
      simp only [get_previous_trading_day, prevTradingDayLoop,
        is_trading_day_eq_false (d - 1) (by omega), Bool.false_eq_true,
        if_false, e1, is_trading_day_eq_false (d - 2) (by omega), e2,
        if_pos ((is_trading_day_iff (d - 3)).mpr (by omega))]
    · intro m h1 h2
      exact is_trading_day_eq_false m (by omega)
  · refine ⟨d - 1, ?_, by omega, (is_trading_day_iff _).mpr (by omega), ?_⟩
    · simp only [get_previous_trading_day, prevTradingDayLoop,
        if_pos ((is_trading_day_iff (d - 1)).mpr (by omega))]
    · intro m h1 h2
      omega
  · refine ⟨d - 1, ?_, by omega, (is_trading_day_iff _).mpr (by omega), ?_⟩
    · simp only [get_previous_trading_day, prevTradingDayLoop,
        if_pos ((is_trading_day_iff (d - 1)).mpr (by omega))]
    · intro m h1 h2
      omega
  · refine ⟨d - 1, ?_, by omega, (is_trading_day_iff _).mpr (by omega), ?_⟩
    · simp only [get_previous_trading_day, prevTradingDayLoop,
        if_pos ((is_trading_day_iff (d - 1)).mpr (by omega))]
    · intro m h1 h2
      omega
  · refine ⟨d - 1, ?_, by omega, (is_trading_day_iff _).mpr (by omega), ?_⟩
    · simp only [get_previous_trading_day, prevTradingDayLoop,
        if_pos ((is_trading_day_iff (d - 1)).mpr (by omega))]
    · intro m h1 h2
      omega
  · -- Saturday: walk back to Friday
    refine ⟨d - 1, ?_, by omega, (is_trading_day_iff _).mpr (by omega), ?_⟩
    · simp only [get_previous_trading_day, prevTradingDayLoop,
        if_pos ((is_trading_day_iff (d - 1)).mpr (by omega))]
    · intro m h1 h2
      omega
  · -- Sunday: walk back across Saturday to Friday
    refine ⟨d - 2, ?_, by omega, (is_trading_day_iff _).mpr (by omega), ?_⟩
    · have e1 : d - 1 - 1 = d - 2 := by omega
      simp only [get_previous_trading_day, prevTradingDayLoop,
        is_trading_day_eq_false (d - 1) (by omega), Bool.false_eq_true,
        if_false, e1, if_pos ((is_trading_day_iff (d - 2)).mpr (by omega))]
    · intro m h1 h2
      exact is_trading_day_eq_false m (by omega)

/-- Witness for C10: the previous trading day of day 10 (a Thursday) is
day 9 (Wednesday). -/
theorem get_previous_trading_day_correct_witness :
    3 ≤ 10 ∧
    (∃ r, get_previous_trading_day 10 = some r ∧ r < 10 ∧
      is_trading_day r = true ∧
      ∀ m, r < m → m < 10 → is_trading_day m = false) :=
  ⟨by omega, get_previous_trading_day_correct 10 (by omega)⟩

/-! ## update2.py — DownFromHighTab.run (lines 1101–1148) -/

/-- Market-open check of `DownFromHighTab.run` (update2.py lines
1104–1110): today is a trading day and the time is between 09:30 and
16:00 inclusive. -/
def is_market_open (today timeMin : ℕ) : Bool :=
  is_trading_day today && (570 ≤ timeMin && timeMin ≤ 960)

/-- `drop = (high - current) / high * 100` (update2.py line 1139).  The
source divides unconditionally; `none` models the division by zero a zero
day-high triggers (under numpy it yields nan/inf — in no case the 0% drop
the spec demands). -/
def dfh_drop (high current : ℚ) : Option ℚ :=
  if high = 0 then none else some ((high - current) / high * 100)

/-- Reference price of `DownFromHighTab.run` (update2.py lines 1130–1135):
during market hours the latest close of the day so far, otherwise the
minimum low of the analysis day (the previous trading day). -/
def dfh_reference (marketOpen : Bool) (bars : List Bar) : Option ℚ :=
  if marketOpen then (bars.map Bar.close).getLast?
  else (bars.map Bar.low).min?

/-- One symbol's step of `DownFromHighTab.run` (update2.py lines
1122–1148): empty data is skipped; `high` is the day's maximum High;
`drop` is computed from the reference; the row `(current, high, drop)` is
added only if `drop ≥ threshold` (`if drop < threshold: continue`). -/
def dfh_report (marketOpen : Bool) (bars : List Bar) (threshold : ℚ) :
    Option (ℚ × ℚ × ℚ) :=
  match (bars.map Bar.high).max?, dfh_reference marketOpen bars with
  | some high, some current =>
    match dfh_drop high current with
    | some drop => if drop < threshold then none else some (current, high, drop)
    | none => none
  | _, _ => none

/-- C4: the swing detector's percentage computations are zero-guarded and
evaluate to 0 when the running extreme is 0, but the dip scanner's drop
computation has no such guard: at a zero session high it divides by zero
(`none`) instead of short-circuiting to the 0% drop the spec requires. -/
theorem zero_division_guards :
    (∀ p : ℚ, pct_from_low 0 p = 0 ∧ pct_from_high 0 p = 0) ∧
    dfh_drop 0 0 = none ∧ (∀ c : ℚ, dfh_drop 0 c ≠ some 0) := by
  refine ⟨fun p => ⟨?_, ?_⟩, ?_, fun c => ?_⟩ <;>
    simp [pct_from_low, pct_from_high, dfh_drop]

/-- The §8 scenario-4 session: previous trading day with low 98 and
high 105. -/
def dfhExampleBars : List Bar :=
  [{ time := 570, openPrice := 100, high := 105, low := 98, close := 100 }]

/-- C7: for every invocation of the dip scanner on a nonempty session with
positive highs, the reference price is the latest close when the market-open
check passes (today a trading day, time within 09:30–16:00) and the
session's minimum low otherwise, and a symbol is reported iff
`(high − reference)/high × 100 ≥ threshold`; on the §8 scenario-4 session
(low 98, high 105, after hours) the symbol is reported at threshold 5 but
not at threshold 7. -/
theorem dfh_report_spec :
    (∀ (today timeMin : ℕ) (bars : List Bar) (t : ℚ),
      bars ≠ [] → (∀ b ∈ bars, 0 < b.high) →
      ∃ high ref,
        (bars.map Bar.high).max? = some high ∧
        dfh_reference (is_market_open today timeMin) bars = some ref ∧
        (is_market_open today timeMin = true ↔
          today % 7 < 5 ∧ 570 ≤ timeMin ∧ timeMin ≤ 960) ∧
        (is_market_open today timeMin = true →
          (bars.map Bar.close).getLast? = some ref) ∧
        (is_market_open today timeMin = false →
          (bars.map Bar.low).min? = some ref) ∧
        ((dfh_report (is_market_open today timeMin) bars t).isSome ↔
          t ≤ (high - ref) / high * 100)) ∧
    (dfh_report false dfhExampleBars 5).isSome = true ∧
    (dfh_report false dfhExampleBars 7).isSome = false := by
  refine ⟨?_, ?_, ?_⟩
  · intro today timeMin bars t hne hpos
    obtain ⟨high, hhigh⟩ : ∃ h, (bars.map Bar.high).max? = some h := by
      cases hmax : (bars.map Bar.high).max? with
      | some h => exact ⟨h, rfl⟩
      | none =>
        rw [List.max?_eq_none_iff] at hmax
        exact absurd (List.map_eq_nil_iff.mp hmax) hne
    obtain ⟨ref, href⟩ :
        ∃ r, dfh_reference (is_market_open today timeMin) bars = some r := by
      unfold dfh_reference
      split_ifs
      · cases hl : (bars.map Bar.close).getLast? with
        | some r => exact ⟨r, rfl⟩
        | none =>
          rw [List.getLast?_eq_none_iff] at hl
          exact absurd (List.map_eq_nil_iff.mp hl) hne
      · cases hl : (bars.map Bar.low).min? with
        | some r => exact ⟨r, rfl⟩
        | none =>
          rw [List.min?_eq_none_iff] at hl
          exact absurd (List.map_eq_nil_iff.mp hl) hne
    have hmem : high ∈ bars.map Bar.high :=
      List.max?_mem (fun a b => max_choice a b) hhigh
    have hhigh_pos : 0 < high := by
      obtain ⟨b, hb, hbh⟩ := List.mem_map.mp hmem
      exact hbh ▸ hpos b hb
    refine ⟨high, ref, hhigh, href, ?_, ?_, ?_, ?_⟩
    · constructor
      · intro hmo
        simp only [is_market_open, is_trading_day, Bool.and_eq_true,
          decide_eq_true_eq] at hmo
        tauto
      · intro hmo
        simp only [is_market_open, is_trading_day, Bool.and_eq_true,
          decide_eq_true_eq]
        tauto
    · intro hopen
      unfold dfh_reference at href
      rwa [if_pos hopen] at href
    · intro hclosed
      unfold dfh_reference at href
      rwa [if_neg (by simp [hclosed])] at href
    · unfold dfh_report
      rw [hhigh, href]
      simp only [dfh_drop, if_neg (ne_of_gt hhigh_pos)]
      split_ifs with hlt
      · exact iff_of_false (by simp) (by rw [not_le]; exact hlt)
      · exact iff_of_true (by simp) (not_lt.mp hlt)
  · norm_num [dfh_report, dfh_reference, dfh_drop, dfhExampleBars,
      List.max?, List.min?]
  · norm_num [dfh_report, dfh_reference, dfh_drop, dfhExampleBars,
      List.max?, List.min?]

/-- Witness for C7 on the §8 scenario-4 session, after hours on a
Saturday (day 5, 12:00). -/
theorem dfh_report_spec_witness :
    dfhExampleBars ≠ [] ∧ (∀ b ∈ dfhExampleBars, 0 < b.high) ∧
    (∃ high ref,
      (dfhExampleBars.map Bar.high).max? = some high ∧
      dfh_reference (is_market_open 5 720) dfhExampleBars = some ref ∧
      (is_market_open 5 720 = true ↔
        5 % 7 < 5 ∧ 570 ≤ 720 ∧ 720 ≤ 960) ∧
      (is_market_open 5 720 = true →
        (dfhExampleBars.map Bar.close).getLast? = some ref) ∧
      (is_market_open 5 720 = false →
        (dfhExampleBars.map Bar.low).min? = some ref) ∧
      ((dfh_report (is_market_open 5 720) dfhExampleBars 5).isSome ↔
        5 ≤ (high - ref) / high * 100)) :=
  ⟨by decide, by decide,
    dfh_report_spec.1 5 720 dfhExampleBars 5 (by decide) (by decide)⟩

/-! ## Threshold validation (Demo1.py run_analysis vs update2.py SwingCounterTab.run) -/

/-- `StockSwingCounter.run_analysis` (Demo1.py lines 450–495), reduced to
its analysis core: an out-of-range swing threshold (`≤ 0 or > 100`) shows
an error dialog and returns before any per-symbol work begins (`none`);
otherwise every symbol's session closes are analyzed with
`detect_swings`. -/
def run_analysis (swing_threshold : ℚ) (sessions : List (List ℚ)) :
    Option (List (ℕ × ℕ)) :=
  if swing_threshold ≤ 0 ∨ 100 < swing_threshold then none
  else some (sessions.map (fun closes => detect_swings closes swing_threshold))

/-- `SwingCounterTab.run` (update2.py lines 994–1060), reduced to its
per-day counting core over the fetched sessions: the method performs no
threshold validation, so every session with at least 2 closes is counted
whatever the threshold value. -/
def swingCounterTab_run (swing_pct : ℚ) (sessions : List (List ℚ)) :
    List (ℕ × ℕ) :=
  sessions.filterMap (fun closes =>
    (swingCounterTab_day closes swing_pct).map (fun s => (s.up, s.down)))

/-- C8 (amended): `Demo1.run_analysis` aborts synchronously on an
out-of-range threshold, before any per-symbol work. -/
theorem run_analysis_aborts (t : ℚ) (sessions : List (List ℚ))
    (h : t ≤ 0 ∨ 100 < t) : run_analysis t sessions = none := by
  rw [run_analysis, if_pos h]

/-- Witness for C8 at threshold −1. -/
theorem run_analysis_aborts_witness :
    ((-1 : ℚ) ≤ 0 ∨ 100 < (-1 : ℚ)) ∧
    run_analysis (-1) [[100, 100]] = none :=
  ⟨Or.inl (by norm_num),
    run_analysis_aborts (-1) [[100, 100]] (Or.inl (by norm_num))⟩

/-- C8 counterexample: with threshold −5 (≤ 0), `SwingCounterTab.run`
does not abort — it analyzes the symbol's session and produces a nonempty
result (every bar-to-bar move counts as an up swing, since
`pct_change ≥ -5` always holds). -/
theorem swingCounterTab_run_no_validation :
    swingCounterTab_run (-5) [[100, 100]] = [(1, 0)] ∧
    swingCounterTab_run (-5) [[100, 100]] ≠ [] := by
  have h : swingCounterTab_run (-5) [[100, 100]] = [(1, 0)] := by
    norm_num [swingCounterTab_run, swingCounterTab_day, tabSwingStep,
      List.filterMap]
  exact ⟨h, by rw [h]; exact fun hx => by cases hx⟩

/-! ## update2.py — EarlySessionTab._run_analysis, per-day routine (lines 1416–1472) -/

/-- The `"HIGH"` / `"LOW"` direction strings of `EarlySessionTab`. -/
inductive AnchorDirection
  | high
  | low
deriving DecidableEq, Repr

/-- One per-day record of `EarlySessionTab._run_analysis`
(update2.py lines 1459–1470). -/
structure AnchorRecord where
  price_at_start : ℚ
  post_high : ℚ
  post_low : ℚ
  selected_price : ℚ
  direction : AnchorDirection
  pct_gain : ℚ
deriving DecidableEq, Repr

/-- `day_df.between_time("09:30", "16:00")` (update2.py line 1417): the
session's regular-hours bars. -/
def regularHours (bars : List Bar) : List Bar :=
  bars.filter (fun b => 570 ≤ b.time && b.time ≤ 960)

/-- `post_df = day_df[day_df.index >= anchor_ts]` (update2.py line 1433):
the post-anchor sub-session, anchor bar included.  With one bar per
timestamp in time order (the data-model invariant), index-comparison
against the anchor bar's timestamp is the time-of-day filter. -/
def postAnchor (start_time : ℕ) (bars : List Bar) : List Bar :=
  (regularHours bars).filter (fun b => start_time ≤ b.time)

/-- One day of `EarlySessionTab._run_analysis` (update2.py lines
1416–1470): find the bar at exactly the anchor time (`between_time(start,
start)`, first hit) — if none, the day is skipped with no fallback;
`price_at_start` is that bar's close; `post_high`/`post_low` are the
extrema of the post-anchor bars; if `post_high > price_at_start` the day
is `HIGH` with `selected_price = post_high`, otherwise `LOW` with
`selected_price = post_low`; `pct_gain = (selected_price -
price_at_start) / price_at_start * 100` (zero-guarded). -/
def early_session_day (start_time : ℕ) (bars : List Bar) : Option AnchorRecord :=
  match (regularHours bars).find? (fun b => b.time == start_time) with
  | none => none
  | some anchor =>
    match ((postAnchor start_time bars).map Bar.high).max?,
          ((postAnchor start_time bars).map Bar.low).min? with
    | some post_high, some post_low =>
      some (if post_high > anchor.close then
        { price_at_start := anchor.close, post_high := post_high,
          post_low := post_low, selected_price := post_high,
          direction := .high,
          pct_gain := if 0 < anchor.close then
            (post_high - anchor.close) / anchor.close * 100 else 0 }
      else
        { price_at_start := anchor.close, post_high := post_high,
          post_low := post_low, selected_price := post_low,
          direction := .low,
          pct_gain := if 0 < anchor.close then
            (post_low - anchor.close) / anchor.close * 100 else 0 })
    | _, _ => none

/-- A flat session: every price is 50 at the 10:00 anchor and after. -/
def earlyFlatBars : List Bar :=
  [{ time := 600, openPrice := 50, high := 50, low := 50, close := 50 },
   { time := 620, openPrice := 50, high := 50, low := 50, close := 50 }]

/-- C6: a session with no bar at the anchor time is skipped (no nearest-bar
fallback); a session with an anchor bar produces a record whose direction
is HIGH with `selected_price = post_high` exactly when `post_high >
anchor_price` and LOW with `selected_price = post_low` otherwise, with
`pct_gain = (selected_price − anchor_price)/anchor_price × 100` over the
post-anchor bars (timestamps ≥ anchor time, inclusive); a flat session
(post_high = post_low = anchor price) is classified LOW. -/
theorem early_session_day_spec :
    (∀ (start_time : ℕ) (bars : List Bar),
      (regularHours bars).find? (fun b => b.time == start_time) = none →
      early_session_day start_time bars = none) ∧
    (∀ (start_time : ℕ) (bars : List Bar) (anchor : Bar),
      (regularHours bars).find? (fun b => b.time == start_time) = some anchor →
      0 < anchor.close →
      ∃ r, early_session_day start_time bars = some r ∧
        r.price_at_start = anchor.close ∧
        ((postAnchor start_time bars).map Bar.high).max? = some r.post_high ∧
        ((postAnchor start_time bars).map Bar.low).min? = some r.post_low ∧
        (r.direction = .high ↔ anchor.close < r.post_high) ∧
        (r.direction = .high → r.selected_price = r.post_high) ∧
        (r.direction = .low → r.selected_price = r.post_low) ∧
        r.pct_gain = (r.selected_price - anchor.close) / anchor.close * 100) ∧
    (early_session_day 600 earlyFlatBars).map AnchorRecord.direction =
      some .low := by
  refine ⟨?_, ?_, by decide⟩
  · intro st bars hnone
    unfold early_session_day
    rw [hnone]
  · intro st bars anchor hfind hpos
    have hmem_day : anchor ∈ regularHours bars := List.mem_of_find?_eq_some hfind
    have hpa : anchor.time = st := by
      have := List.find?_some hfind
      simpa using this
    have hmem_post : anchor ∈ postAnchor st bars :=
      List.mem_filter.mpr ⟨hmem_day, by simp [hpa]⟩
    have hpostne : postAnchor st bars ≠ [] := List.ne_nil_of_mem hmem_post
    obtain ⟨ph, hph⟩ : ∃ x, ((postAnchor st bars).map Bar.high).max? = some x := by
      cases hmax : ((postAnchor st bars).map Bar.high).max? with
      | some x => exact ⟨x, rfl⟩
      | none =>
        rw [List.max?_eq_none_iff] at hmax
        exact absurd (List.map_eq_nil_iff.mp hmax) hpostne
    obtain ⟨pl, hpl⟩ : ∃ x, ((postAnchor st bars).map Bar.low).min? = some x := by
      cases hmin : ((postAnchor st bars).map Bar.low).min? with
      | some x => exact ⟨x, rfl⟩
      | none =>
        rw [List.min?_eq_none_iff] at hmin
        exact absurd (List.map_eq_nil_iff.mp hmin) hpostne
    unfold early_session_day
    rw [hfind, hph, hpl]
    dsimp only []
    simp only [if_pos hpos]
    split_ifs with hgt
    · exact ⟨_, rfl, rfl, rfl, rfl, iff_of_true rfl hgt, fun _ => rfl,
        fun h => by simp at h, rfl⟩
    · exact ⟨_, rfl, rfl, rfl, rfl, iff_of_false (fun h => by simp at h) hgt,
        fun h => by simp at h, fun _ => rfl, rfl⟩

/-- Witness for C6 on the flat session: the 10:00 anchor bar is found, its
close is positive, and the record comes out LOW. -/
theorem early_session_day_spec_witness :
    ((regularHours earlyFlatBars).find? (fun b => b.time == 600) =
      some { time := 600, openPrice := 50, high := 50, low := 50, close := 50 }) ∧
    ((0 : ℚ) < 50) ∧
    (∃ r, early_session_day 600 earlyFlatBars = some r ∧
      r.price_at_start = 50 ∧
      ((postAnchor 600 earlyFlatBars).map Bar.high).max? = some r.post_high ∧
      ((postAnchor 600 earlyFlatBars).map Bar.low).min? = some r.post_low ∧
      (r.direction = .high ↔ (50 : ℚ) < r.post_high) ∧
      (r.direction = .high → r.selected_price = r.post_high) ∧
      (r.direction = .low → r.selected_price = r.post_low) ∧
      r.pct_gain = (r.selected_price - 50) / 50 * 100) :=
  ⟨by decide, by decide,
    early_session_day_spec.2.1 600 earlyFlatBars
      { time := 600, openPrice := 50, high := 50, low := 50, close := 50 }
      (by decide) (by decide)⟩

end StockSwing
